import Mathlib

/-!
# Pigeon Optics — verification of the storage substrate

A shallow embedding of the core of the `datasets-database` ("Pigeon Optics")
repository: the JavaScript value model, the natural-order comparator used to
sort dataset records, the base data model (`readMeta` / `updateMeta` /
`writeEntries` and friends), the attachment store, the codec registry lookup,
the HTTP error-status mapping, and the XML codec's JsonML conversions.

Conventions of the embedding:

* JavaScript objects with string keys are modelled as association lists in
  insertion order.  All record IDs used in the theorems below are plain string
  keys (none look like array indices), so JavaScript's integer-key reordering
  never applies and insertion order is faithful.
* Asynchronous functions that can `throw` are modelled with `Except`.
* `Date.now()` is passed in explicitly as a `now : Nat` argument.
* SHA-256 content hashes of structured values are modelled by an explicit
  `hashFn : JsValue → Nat` environment parameter (the store is content
  addressed: equal values give equal hashes).
-/

namespace PigeonOptics

/-- The recursive structured-value type handled by the codecs and stores:
JavaScript `null`/`undefined`, booleans, numbers (integral values plus a
separate `nan` marker), strings, byte buffers, dates (milliseconds since
epoch), arrays, and string-keyed objects in insertion order. -/
inductive JsValue where
  | null
  | undefined
  | bool (b : Bool)
  | num (n : Int)
  | nan
  | str (s : String)
  | buf (bytes : List Nat)
  | date (ms : Int)
  | arr (items : List JsValue)
  | obj (fields : List (String × JsValue))

mutual

/-- Structural (deep) equality of `JsValue`s. -/
def beqVal : JsValue → JsValue → Bool
  | .null, .null => true
  | .undefined, .undefined => true
  | .bool a, .bool b => a == b
  | .num a, .num b => a == b
  | .nan, .nan => true
  | .str a, .str b => a == b
  | .buf a, .buf b => a == b
  | .date a, .date b => a == b
  | .arr a, .arr b => beqValList a b
  | .obj a, .obj b => beqValFields a b
  | _, _ => false

/-- Elementwise equality of arrays. -/
def beqValList : List JsValue → List JsValue → Bool
  | [], [] => true
  | x :: xs, y :: ys => beqVal x y && beqValList xs ys
  | _, _ => false

/-- Elementwise equality of object field lists. -/
def beqValFields : List (String × JsValue) → List (String × JsValue) → Bool
  | [], [] => true
  | (k, x) :: xs, (k', y) :: ys => k == k' && (beqVal x y && beqValFields xs ys)
  | _, _ => false

end

mutual

theorem beqVal_iff : ∀ a b : JsValue, beqVal a b = true ↔ a = b
  | .null, b => by cases b <;> simp [beqVal]
  | .undefined, b => by cases b <;> simp [beqVal]
  | .bool a, b => by cases b <;> simp [beqVal]
  | .num a, b => by cases b <;> simp [beqVal]
  | .nan, b => by cases b <;> simp [beqVal]
  | .str a, b => by cases b <;> simp [beqVal]
  | .buf a, b => by cases b <;> simp [beqVal]
  | .date a, b => by cases b <;> simp [beqVal]
  | .arr a, b => by
      cases b <;> simp [beqVal]
      exact beqValList_iff a _
  | .obj a, b => by
      cases b <;> simp [beqVal]
      exact beqValFields_iff a _

theorem beqValList_iff : ∀ a b : List JsValue, beqValList a b = true ↔ a = b
  | [], b => by cases b <;> simp [beqValList]
  | x :: xs, b => by
      cases b <;> simp [beqValList]
      rw [beqVal_iff, beqValList_iff]

theorem beqValFields_iff : ∀ a b : List (String × JsValue), beqValFields a b = true ↔ a = b
  | [], b => by cases b <;> simp [beqValFields]
  | (k, x) :: xs, b => by
      cases b with
      | nil => simp [beqValFields]
      | cons hd tl =>
        obtain ⟨k', y⟩ := hd
        simp [beqValFields]
        rw [beqVal_iff, beqValFields_iff]
        tauto

end

instance : DecidableEq JsValue := fun a b =>
  decidable_of_iff (beqVal a b = true) (beqVal_iff a b)

/-! ## Association-list primitives (JavaScript string-keyed objects) -/

/-- `record[k]` — first binding of key `k`. -/
def lookupKey (k : String) : List (String × β) → Option β
  | [] => none
  | (k', v) :: rest => if k' = k then some v else lookupKey k rest

/-- `record[k] = v` — replace in place if the key exists, append otherwise
(JavaScript string-key assignment keeps the key's position). -/
def setKey (k : String) (v : β) : List (String × β) → List (String × β)
  | [] => [(k, v)]
  | (k', v') :: rest => if k' = k then (k, v) :: rest else (k', v') :: setKey k v rest

/-- `delete record[k]`. -/
def eraseKey (k : String) (l : List (String × β)) : List (String × β) :=
  l.filter (fun kv => kv.1 ≠ k)

/-- `Object.keys(record)` in stored order. -/
def keysOf (l : List (String × β)) : List String := l.map (·.1)

/-! ## Natural string comparison

The dataset model sorts `records` with the `string-natural-compare` npm
package.  Its algorithm walks both strings; on a pair of digits it skips
leading `'0'`s, compares the lengths of the digit runs, then the digit runs
themselves, and continues; on other characters it compares char codes; when
one string is exhausted, the difference of the *total* lengths decides.  The
recursion below carries `δ`, the running difference between the number of
characters consumed from each side (nonzero only after runs with unequal
numbers of leading zeros), so that the final total-length comparison can be
expressed on the remaining suffixes. -/

/-- `isNumberCode` from string-natural-compare: code in `48..57`. -/
def isDigitCode (c : Char) : Bool := 48 ≤ c.toNat && c.toNat ≤ 57

/-- Number of leading `'0'` characters. -/
def zeros (l : List Char) : Nat := (l.takeWhile (· = '0')).length

/-- The digit run that follows the leading zeros. -/
def digitRun (l : List Char) : List Char := (l.drop (zeros l)).takeWhile (isDigitCode ·)

/-- Characters consumed from a string by one number-comparison step:
the leading zeros plus the digit run. -/
def numConsumed (l : List Char) : Nat := zeros l + (digitRun l).length

theorem numConsumed_le_length (l : List Char) : numConsumed l ≤ l.length := by
  have h1 : zeros l ≤ l.length := by
    simpa [zeros] using (List.takeWhile_sublist (l := l) (· = '0')).length_le
  have h2 : (digitRun l).length ≤ l.length - zeros l := by
    have := (List.takeWhile_sublist (l := l.drop (zeros l)) (isDigitCode ·)).length_le
    simpa [digitRun] using this
  simp only [numConsumed]
  omega

theorem one_le_numConsumed (c : Char) (l : List Char) (h : isDigitCode c) :
    1 ≤ numConsumed (c :: l) := by
  by_cases h0 : c = '0'
  · have : 1 ≤ zeros (c :: l) := by simp [zeros, List.takeWhile, h0]
    simp only [numConsumed]; omega
  · have hz : zeros (c :: l) = 0 := by
      simp [zeros, List.takeWhile, h0]
    have : (digitRun (c :: l)).length ≥ 1 := by
      simp [digitRun, hz, List.takeWhile, h]
    simp only [numConsumed]; omega

/-- Compare two equal-length digit runs character by character;
`some d` is the first nonzero char-code difference, `none` means no
difference was found. -/
def cmpRun : List Char → List Char → Option Int
  | x :: xs, y :: ys =>
      if x = y then cmpRun xs ys else some ((x.toNat : Int) - (y.toNat : Int))
  | _, _ => none

/-- The main loop of `string-natural-compare`.  `δ` is the difference in
characters consumed so far from the left and right strings.  The loop
consumes at least one character of the left string per iteration, so the
left string's length bounds the number of iterations; `fuel` is a structural
bound on iterations, shown irrelevant for any `fuel ≥ a.length` by
`natCmpGo_fuel_irrelevant`. -/
def natCmpGo : Nat → List Char → List Char → Int → Int
  | _, [], b, δ => δ - b.length
  | _, ca :: as, [], δ => δ + (ca :: as).length
  | 0, _ :: _, _ :: _, _ => 0
  | fuel + 1, ca :: as, cb :: bs, δ =>
    if isDigitCode ca then
      if ¬ isDigitCode cb then (ca.toNat : Int) - (cb.toNat : Int)
      else if (digitRun (ca :: as)).length ≠ (digitRun (cb :: bs)).length then
        ((digitRun (ca :: as)).length : Int) - ((digitRun (cb :: bs)).length : Int)
      else match cmpRun (digitRun (ca :: as)) (digitRun (cb :: bs)) with
        | some d => d
        | none =>
            natCmpGo fuel ((ca :: as).drop (numConsumed (ca :: as)))
              ((cb :: bs).drop (numConsumed (cb :: bs)))
              (δ + (zeros (ca :: as) : Int) - (zeros (cb :: bs) : Int))
    else
      if ca = cb then natCmpGo fuel as bs δ
      else (ca.toNat : Int) - (cb.toNat : Int)

/-- The fuel plays no role as soon as it is at least the left string's
length: `natCmpGo` then computes the same value for any two such fuels. -/
theorem natCmpGo_fuel_irrelevant :
    ∀ (f g : Nat) (a b : List Char) (δ : Int), a.length ≤ f → a.length ≤ g →
      natCmpGo f a b δ = natCmpGo g a b δ
  | _, _, [], [], _, _, _ => by simp [natCmpGo]
  | _, _, [], _ :: _, _, _, _ => by simp [natCmpGo]
  | f, g, ca :: as, [], δ, hf, hg => by simp [natCmpGo]
  | f, g, ca :: as, cb :: bs, δ, hf, hg => by
      cases f with
      | zero => simp at hf
      | succ f =>
        cases g with
        | zero => simp at hg
        | succ g =>
          simp only [natCmpGo]
          by_cases hca : isDigitCode ca
          · by_cases hcb : isDigitCode cb
            · by_cases hlen :
                  (digitRun (ca :: as)).length = (digitRun (cb :: bs)).length
              · cases hcr : cmpRun (digitRun (ca :: as)) (digitRun (cb :: bs)) with
                | some d => simp [hca, hcb, hlen, hcr]
                | none =>
                  simp only [hca, hcb, hlen, hcr, not_true_eq_false, if_false,
                    ite_false, ite_true, ne_eq, not_false_eq_true, if_true]
                  apply natCmpGo_fuel_irrelevant
                  · have h1 := one_le_numConsumed ca as hca
                    have h2 := numConsumed_le_length (ca :: as)
                    simp only [List.length_drop, List.length_cons] at *
                    omega
                  · have h1 := one_le_numConsumed ca as hca
                    have h2 := numConsumed_le_length (ca :: as)
                    simp only [List.length_drop, List.length_cons] at *
                    omega
              · simp [hca, hcb, hlen]
            · simp [hca, hcb]
          · by_cases hab : ca = cb
            · subst hab
              simp only [hca, Bool.false_eq_true, if_false, ite_true, if_pos rfl]
              apply natCmpGo_fuel_irrelevant
              · simp only [List.length_cons] at hf; omega
              · simp only [List.length_cons] at hg; omega
            · simp [hca, hab]

/-- `stringNaturalCompare(a, b)` from the string-natural-compare package. -/
def natCmp (a b : String) : Int := natCmpGo a.data.length a.data b.data 0

/-- `natCmp a b ≤ 0`: `a` sorts no later than `b` in natural order. -/
def natLe (a b : String) : Prop := natCmp a b ≤ 0

instance : DecidableRel natLe := fun x y => inferInstanceAs (Decidable (natCmp x y ≤ 0))

/-- Boolean form of `natLe`, used as the sort comparator. -/
def natLeB (a b : String) : Bool := natCmp a b ≤ 0

theorem cmpRun_flip : ∀ x y : List Char, cmpRun y x = (cmpRun x y).map (fun d => -d)
  | [], [] => rfl
  | [], _ :: _ => rfl
  | _ :: _, [] => rfl
  | x :: xs, y :: ys => by
    by_cases hxy : x = y
    · subst hxy; simpa [cmpRun] using cmpRun_flip xs ys
    · simp [cmpRun, hxy, Ne.symm hxy]

theorem natCmpGo_flip : ∀ (f : Nat) (a b : List Char) (δ : Int),
    natCmpGo f b a (-δ) = - natCmpGo f a b δ
  | f, [], [], δ => by cases f <;> simp [natCmpGo]
  | f, [], _ :: _, δ => by cases f <;> (simp [natCmpGo]; ring)
  | f, _ :: _, [], δ => by cases f <;> (simp [natCmpGo]; ring)
  | 0, _ :: _, _ :: _, δ => by simp [natCmpGo]
  | f + 1, ca :: as, cb :: bs, δ => by
    by_cases hca : isDigitCode ca
    · by_cases hcb : isDigitCode cb
      · by_cases hlen : (digitRun (ca :: as)).length = (digitRun (cb :: bs)).length
        · cases hcr : cmpRun (digitRun (ca :: as)) (digitRun (cb :: bs)) with
          | some d =>
            have hcr' : cmpRun (digitRun (cb :: bs)) (digitRun (ca :: as)) = some (-d) := by
              rw [cmpRun_flip, hcr]; rfl
            simp [natCmpGo, hca, hcb, hlen, hcr, hcr']
          | none =>
            have hcr' : cmpRun (digitRun (cb :: bs)) (digitRun (ca :: as)) = none := by
              rw [cmpRun_flip, hcr]; rfl
            have harg : -δ + (zeros (cb :: bs) : Int) - (zeros (ca :: as) : Int) =
                -(δ + (zeros (ca :: as) : Int) - (zeros (cb :: bs) : Int)) := by ring
            simp only [natCmpGo, hca, hcb, hlen, hcr, hcr', not_true_eq_false,
              Bool.false_eq_true, if_false, ite_false, ite_true, if_true, ne_eq,
              not_false_eq_true]
            rw [harg]
            exact natCmpGo_flip f _ _ _
        · simp [natCmpGo, hca, hcb, hlen, Ne.symm hlen]
      · have hne : cb ≠ ca := fun h => hcb (h ▸ hca)
        simp [natCmpGo, hca, hcb, hne]
    · by_cases hab : ca = cb
      · subst hab
        simp only [natCmpGo, hca, Bool.false_eq_true, if_false, ite_true, if_pos rfl]
        exact natCmpGo_flip f as bs δ
      · by_cases hcb : isDigitCode cb
        · simp [natCmpGo, hca, hcb, hab, Ne.symm hab]
        · simp [natCmpGo, hca, hcb, hab, Ne.symm hab]

theorem natCmp_flip (a b : String) : natCmp b a = - natCmp a b := by
  unfold natCmp
  rw [natCmpGo_fuel_irrelevant b.data.length (a.data.length + b.data.length) b.data a.data 0
      (by omega) (by omega),
    natCmpGo_fuel_irrelevant a.data.length (a.data.length + b.data.length) a.data b.data 0
      (by omega) (by omega)]
  have := natCmpGo_flip (a.data.length + b.data.length) a.data b.data 0
  simpa using this

/-- The natural comparator is total: one of the two directions always
compares `≤ 0`. -/
theorem natLe_total (a b : String) : natLe a b ∨ natLe b a := by
  simp only [natLe]
  have := natCmp_flip a b
  omega

/-! ## `Array.prototype.sort` model

`updateMeta` sorts record entries with
`Object.entries(records).sort((a, b) => stringNaturalCompare(a[0], b[0]))`.
We model the engine's sort as a stable insertion sort: for every consistent
comparator a stable sort is unique, so this agrees with any conforming
JavaScript engine there; where the comparator is inconsistent ECMA-262 leaves
the order implementation-defined, and on the concrete inputs used below the
insertion sort and V8's TimSort produce the same output. -/

def jsOrderedInsert (le : α → α → Bool) (a : α) : List α → List α
  | [] => [a]
  | b :: l => if le a b then a :: b :: l else b :: jsOrderedInsert le a l

/-- Stable sort by a boolean comparator. -/
def jsSortBy (le : α → α → Bool) : List α → List α
  | [] => []
  | a :: l => jsOrderedInsert le a (jsSortBy le l)

theorem chain'_jsOrderedInsert (le : α → α → Bool)
    (htot : ∀ x y, le x y = true ∨ le y x = true) (a : α) :
    ∀ l, List.Chain' (fun x y => le x y = true) l →
      List.Chain' (fun x y => le x y = true) (jsOrderedInsert le a l)
  | [], _ => List.chain'_singleton a
  | b :: l, h => by
    rw [jsOrderedInsert]
    by_cases hab : le a b = true
    · simpa [hab] using h
    · rw [if_neg hab, List.chain'_cons']
      constructor
      · intro y hy
        cases l with
        | nil =>
          simp [jsOrderedInsert] at hy
          subst hy
          rcases htot a b with h' | h'
          · exact absurd h' hab
          · exact h'
        | cons c l' =>
          rw [jsOrderedInsert] at hy
          by_cases hac : le a c = true
          · simp [hac] at hy
            subst hy
            rcases htot a b with h' | h'
            · exact absurd h' hab
            · exact h'
          · simp [hac] at hy
            subst hy
            exact (List.chain'_cons.mp h).1
      · exact chain'_jsOrderedInsert le htot a l (h.tail)

theorem chain'_jsSortBy (le : α → α → Bool)
    (htot : ∀ x y, le x y = true ∨ le y x = true) :
    ∀ l, List.Chain' (fun x y => le x y = true) (jsSortBy le l)
  | [] => List.chain'_nil
  | a :: l => chain'_jsOrderedInsert le htot a _ (chain'_jsSortBy le htot l)

/-! ## Hash URL extraction (`utility/record-structure`)

The claims' callers (`writeEntries`) use `recordStructure.listHashURLs`, whose
module is not among the provided sources. -/

/-- A `hash://sha256/<hex>[?type=<mime>]` reference occurring in a record. -/
structure HashLink where
  url : String
  hex : String
deriving DecidableEq

/-- ASCII lowercasing of one character (`String.prototype.toLowerCase` on the
hex and media-type strings handled here, which are ASCII). -/
def jsCharToLower (c : Char) : Char :=
  if 65 ≤ c.toNat && c.toNat ≤ 90 then Char.ofNat (c.toNat + 32) else c

/-- ASCII `toLowerCase`. -/
def jsToLower (s : String) : String := ⟨s.data.map jsCharToLower⟩

/-- `prefix.isPrefixOf s`, computed on the character lists. -/
def strHasPrefix (p s : String) : Bool := p.data.isPrefixOf s.data

/-- Modelled from the spec: the hex digest of a hash URL — the text after the
`hash://sha256/` prefix up to an optional `?` query, in canonical lowercase
(the scheme is case-insensitive on the hex portion). -/
def hexOfHashURL (s : String) : String :=
  jsToLower ⟨(s.data.drop 14).takeWhile (· ≠ '?')⟩

mutual

/-- Modelled from the spec: `listHashURLs` from `utility/record-structure`
(module not in the provided sources) — a recursive walk of a structured value
in which every string value starting with the `hash://sha256/` prefix is
treated as an attachment reference. -/
def listHashURLs : JsValue → List HashLink
  | .str s => if strHasPrefix "hash://sha256/" s then [⟨s, hexOfHashURL s⟩] else []
  | .arr items => listHashURLsList items
  | .obj fields => listHashURLsFields fields
  | _ => []

/-- Hash URLs of the elements of an array, in order. -/
def listHashURLsList : List JsValue → List HashLink
  | [] => []
  | v :: rest => listHashURLs v ++ listHashURLsList rest

/-- Hash URLs of the values of an object, in field order. -/
def listHashURLsFields : List (String × JsValue) → List HashLink
  | [] => []
  | (_, v) :: rest => listHashURLs v ++ listHashURLsFields rest

end

/-! ## File store (`library/models/file/cbor`)

The path-keyed CBOR file store module is not among the provided sources; the
two operations the dataset model relies on are modelled from the spec. -/

/-- Modelled from the spec: `read(path) → value | undefined` — reading an
absent path yields `undefined` (here `none`), it does not throw.  The stored
file content itself is the model's state. -/
def fileStoreRead (file : Option α) : Option α := file

/-! ## Base data model (`models/base-data-model`) -/

/-- `RecordMeta`: the per-record entry of a dataset's meta.  `version` is
`none` for an entry freshly written by `writeEntries` (the JavaScript object
`{ hash, links }` has no `version` property until `updateMeta` defaults it). -/
structure RecordMeta where
  hash : Nat
  links : List String
  version : Option Nat
deriving DecidableEq

/-- `DatasetMeta` as stored at the file-store path `[..., "meta"]`. -/
structure DatasetMeta where
  version : Nat
  created : Nat
  updated : Nat
  records : List (String × RecordMeta)
deriving DecidableEq

/-- One dataset's persistent state: the meta file and the per-dataset
content-addressed object store (the set of stored object hashes). -/
structure DS where
  meta : Option DatasetMeta
  objects : List Nat
deriving DecidableEq

/-- The error taxonomy of the operations modelled here. -/
inductive Err where
  | datasetMissing
  | missingAttachments (urls : List String)
  | validationFailed (msg : String)
  | assertionFailed
  | attachmentMissing
deriving DecidableEq

/-- The collaborators `updateMeta`/`writeEntries` close over: the attachment
store's `has` (by hex digest), the canonical-CBOR content hash, and the
source-specific record/config validators. -/
structure DatasetEnv where
  attHas : String → Bool
  hashFn : JsValue → Nat
  validateRecord : String → JsValue → Except Err Unit
  validateConfig : DatasetMeta → Except Err Unit

/-- The hash URLs of `v` whose digest the attachment store does not have
(`linkChecks.filter(x => !x.present)` in `writeEntries`). -/
def missingLinks (env : DatasetEnv) (v : JsValue) : List HashLink :=
  (listHashURLs v).filter (fun l => ¬ env.attHas l.hex)

/-- The hashes of all records of a meta, in record order (the retain list
seeding of `updateMeta`). -/
def recordHashes (records : List (String × RecordMeta)) : List Nat :=
  records.map (fun kv => kv.2.hash)

/-- The record-normalisation loop of `updateMeta` (source lines 37–45):
default a missing `version` to the draft's version, assert it is positive,
and collect each record's hash onto the retain list.  On an assertion failure
the hashes already collected are returned with the error (they were pushed
before the failing record). -/
def normaliseRecords (dv : Nat) :
    List (String × RecordMeta) → Except (Err × List Nat) (List (String × RecordMeta) × List Nat)
  | [] => .ok ([], [])
  | (k, r) :: rest =>
    let ver := r.version.getD dv
    if ver = 0 then .error (.assertionFailed, [])
    else match normaliseRecords dv rest with
      | .error (e, hs) => .error (e, r.hash :: hs)
      | .ok (rs, hs) => .ok ((k, { r with version := some ver }) :: rs, r.hash :: hs)

/-- A mutation block as passed to `updateMeta`: it receives the draft meta
and may read and write the dataset's object store.  A thrown error carries
the object-store contents at throw time (the writes it made persist until
the `finally` retain). -/
def Block := DatasetMeta → List Nat → Except (Err × List Nat) (DatasetMeta × List Nat)

/-- `updateMeta` (source lines 23–65): read the meta under the path lock
(error if missing), bump `version`, stamp `updated`, seed the retain list
with the previous records' hashes, run the block, normalise and sort the
resulting records by natural comparison of their IDs, validate the config,
and — in a `finally`, on success and failure alike — retain only objects
referenced by the previous or the new record set.  Only on success is the
meta file rewritten. -/
def updateMeta (env : DatasetEnv) (now : Nat) (block : Block) (st : DS) :
    Except Err Unit × DS :=
  match fileStoreRead st.meta with
  | none => (.error .datasetMissing, st)
  | some meta0 =>
    let draft : DatasetMeta := { meta0 with version := meta0.version + 1, updated := now }
    let retain0 := recordHashes meta0.records
    match block draft st.objects with
    | .error (e, objsAtThrow) =>
        (.error e, { st with objects := objsAtThrow.filter (fun h => h ∈ retain0) })
    | .ok (result, objs) =>
      match normaliseRecords draft.version result.records with
      | .error (e, partialHashes) =>
          (.error e, { st with objects := objs.filter (fun h => h ∈ retain0 ++ partialHashes) })
      | .ok (records', newHashes) =>
        let retain := retain0 ++ newHashes
        let sorted := jsSortBy (fun x y => natLeB x.1 y.1) records'
        let result' := { result with records := sorted }
        match env.validateConfig result' with
        | .error e => (.error e, { st with objects := objs.filter (fun h => h ∈ retain) })
        | .ok _ => (.ok (), { meta := some result', objects := objs.filter (fun h => h ∈ retain) })

/-- `readMeta` (source lines 18–20): a plain file-store read of `['meta']`. -/
def readMetaOp (st : DS) : Option DatasetMeta := fileStoreRead st.meta

/-- The per-entry loop of `writeEntries` (source lines 132–154): for data
entries, extract links, fail with `MISSING_ATTACHMENTS` if any digest is not
in the attachment store, run source-specific validation, write the value to
the object store (content-addressed, idempotent), and update the record when
it is new or its hash changed; for null entries, delete the record. -/
def writeLoop (env : DatasetEnv) :
    List (String × Option JsValue) → List (String × RecordMeta) → List Nat → List String →
    Except (Err × List Nat) (List (String × RecordMeta) × List Nat × List String)
  | [], recs, objs, included => .ok (recs, objs, included)
  | (id, some v) :: rest, recs, objs, included =>
    let missing := missingLinks env v
    if missing.isEmpty then
      match env.validateRecord id v with
      | .error e => .error (e, objs)
      | .ok _ =>
        let included' := included ++ [id]
        let h := env.hashFn v
        let objs' := if h ∈ objs then objs else objs ++ [h]
        let recs' :=
          if (lookupKey id recs).map (·.hash) = some h then recs
          else setKey id ⟨h, (listHashURLs v).map (·.url), none⟩ recs
        writeLoop env rest recs' objs' included'
    else .error (.missingAttachments (missing.map (·.url)), objs)
  | (id, none) :: rest, recs, objs, included =>
      writeLoop env rest (eraseKey id recs) objs included

/-- The `updateMeta` block built by `writeEntries` (source lines 129–165):
run the per-entry loop, then under `overwrite: true` drop every previously
present record ID that this call did not write. -/
def writeEntriesBlock (env : DatasetEnv) (entries : List (String × Option JsValue))
    (overwrite : Bool) : Block := fun draft objs =>
  let prev := keysOf draft.records
  match writeLoop env entries draft.records objs [] with
  | .error e => .error e
  | .ok (recs, objs', included) =>
    let recs' := if overwrite then recs.filter (fun kv => kv.1 ∈ included ∨ kv.1 ∉ prev)
                 else recs
    .ok ({ draft with records := recs' }, objs')

/-- `writeEntries` (source lines 125–166). -/
def writeEntries (env : DatasetEnv) (now : Nat) (entries : List (String × Option JsValue))
    (overwrite : Bool) (st : DS) : Except Err Unit × DS :=
  updateMeta env now (writeEntriesBlock env entries overwrite) st

/-- The block of a per-record `delete` (source lines 187–190). -/
def deleteRecordBlock (recordID : String) : Block := fun draft objs =>
  .ok ({ draft with records := eraseKey recordID draft.records }, objs)

/-! ## Demonstration inputs shared by the witnesses below -/

/-- A concrete environment: an attachment store that has nothing, a toy
content hash, and source validators that accept everything. -/
def demoEnv : DatasetEnv where
  attHas := fun _ => false
  hashFn := fun v => match v with
    | .num n => n.natAbs + 1
    | .str s => s.length + 100
    | _ => 0
  validateRecord := fun _ _ => .ok ()
  validateConfig := fun _ => .ok ()

/-- A freshly created empty dataset. -/
def demoSt0 : DS := { meta := some { version := 0, created := 0, updated := 0, records := [] }, objects := [] }

/-- A dataset holding records `a`, `b`, `c` with their objects stored. -/
def demoSt1 : DS :=
  (writeEntries demoEnv 5
    [("a", some (.num 1)), ("b", some (.num 2)), ("c", some (.num 3))] false demoSt0).2

/-! ## Helper lemmas about the dataset model -/

theorem writeEntriesBlock_version (env : DatasetEnv) (entries : List (String × Option JsValue))
    (ow : Bool) (draft : DatasetMeta) (objs : List Nat) (res : DatasetMeta × List Nat)
    (h : writeEntriesBlock env entries ow draft objs = .ok res) : res.1.version = draft.version := by
  unfold writeEntriesBlock at h
  cases hw : writeLoop env entries draft.records objs [] with
  | error e => rw [hw] at h; exact absurd h (by simp)
  | ok out =>
    rw [hw] at h
    obtain ⟨recs, objs', included⟩ := out
    simp only [Except.ok.injEq] at h
    rw [← h]

theorem deleteRecordBlock_version (recordID : String) (draft : DatasetMeta) (objs : List Nat)
    (res : DatasetMeta × List Nat) (h : deleteRecordBlock recordID draft objs = .ok res) :
    res.1.version = draft.version := by
  unfold deleteRecordBlock at h
  simp only [Except.ok.injEq] at h
  rw [← h]

/-! ## C2 — versions increase by exactly one -/

/-- C2: every successful `updateMeta` writes a meta whose `version` is exactly
one more than the stored version, and every failed `updateMeta` leaves the
stored meta (in particular its version) unchanged.  The hypothesis `hpres`
states that the block does not itself tamper with the draft's version field,
which holds for every block the model builds (`writeEntriesBlock`, and hence
`write`/`merge`/`overwrite`, and `deleteRecordBlock`) — see
`writeEntriesBlock_version` and `deleteRecordBlock_version`. -/
theorem updateMeta_version_increment (env : DatasetEnv) (now : Nat) (block : Block) (st : DS)
    (hpres : ∀ draft objs res, block draft objs = .ok res → res.1.version = draft.version) :
    ((updateMeta env now block st).1 = .ok () →
      ∃ m0 m1, st.meta = some m0 ∧ (updateMeta env now block st).2.meta = some m1 ∧
        m1.version = m0.version + 1) ∧
    (∀ e, (updateMeta env now block st).1 = .error e →
      (updateMeta env now block st).2.meta = st.meta) := by
  unfold updateMeta fileStoreRead
  cases hm : st.meta with
  | none => simp [hm]
  | some meta0 =>
    simp only [hm]
    cases hb : block { meta0 with version := meta0.version + 1, updated := now } st.objects with
    | error p => obtain ⟨e, objsAtThrow⟩ := p; simp [hb, hm]
    | ok out =>
      obtain ⟨result, objs⟩ := out
      have hver := hpres _ _ _ hb
      simp only at hver
      simp only [hb]
      cases hn : normaliseRecords (meta0.version + 1) result.records with
      | error p => obtain ⟨e, hs⟩ := p; simp [hn, hm]
      | ok out' =>
        obtain ⟨records', newHashes⟩ := out'
        simp only [hn]
        cases hv : env.validateConfig { result with
            records := jsSortBy (fun x y => natLeB x.1 y.1) records' } with
        | error e => simp [hv, hm]
        | ok u =>
          cases u
          simp only [hv]
          constructor
          · intro _
            exact ⟨meta0, _, rfl, rfl, by simpa using hver⟩
          · intro e h
            exact absurd h (by simp)

/-- C2 witness: writing one record to the fresh dataset bumps the version
from 0 to 1. -/
theorem updateMeta_version_increment_witness :
    ∃ m0 m1, demoSt0.meta = some m0 ∧
      (updateMeta demoEnv 5 (writeEntriesBlock demoEnv [("a", some (.str "A"))] false)
        demoSt0).2.meta = some m1 ∧
      m1.version = m0.version + 1 :=
  (updateMeta_version_increment demoEnv 5
      (writeEntriesBlock demoEnv [("a", some (.str "A"))] false) demoSt0
      (fun draft objs res h => writeEntriesBlock_version _ _ _ draft objs res h)).1 rfl

/-! ## C5 — readMeta on an absent dataset -/

/-- C5 counterexample: `readMeta` of a dataset that does not exist returns
`undefined` (modelled `none`) instead of failing with `NOT_FOUND`: it is a
bare file-store read, whose result type cannot carry an error at all. -/
theorem readMeta_absent_returns_undefined :
    readMetaOp { meta := none, objects := [] } = none := rfl

/-- C5 (amended): for every dataset state in which the named dataset is
absent, `readMeta` returns `undefined` (`none`); no `NOT_FOUND` error is
raised (`updateMeta`, by contrast, throws when the meta is missing). -/
theorem readMeta_of_absent (st : DS) (h : st.meta = none) : readMetaOp st = none := by
  simpa [readMetaOp, fileStoreRead] using h

/-- C5 witness. -/
theorem readMeta_of_absent_witness : readMetaOp { meta := none, objects := [7] } = none :=
  readMeta_of_absent { meta := none, objects := [7] } rfl

/-! ## C9 — ordering of the stored records -/

theorem natLeB_eq_true_iff (a b : String) : natLeB a b = true ↔ natLe a b := by
  simp [natLeB, natLe]

/-- C9 counterexample: a successful `writeEntries` whose stored record IDs
are, in stored order, `["1b", "01", "1a"]` — not ordered by natural string
comparison, since `natCmp "1b" "1a" > 0` puts `"1b"` after `"1a"`.  The
natural comparator is inconsistent on these keys (`"01"` compares equal to
both `"1a"` and `"1b"`), the input order is already a weakly ascending run
for it, and the sort returns it unchanged. -/
theorem records_not_naturally_ordered :
    (writeEntries demoEnv 5
      [("1b", some (.num 1)), ("01", some (.num 2)), ("1a", some (.num 3))] false demoSt0).1
        = .ok () ∧
    ((writeEntries demoEnv 5
      [("1b", some (.num 1)), ("01", some (.num 2)), ("1a", some (.num 3))] false
        demoSt0).2.meta.map (fun m => keysOf m.records)) = some ["1b", "01", "1a"] ∧
    ¬ List.Pairwise natLe ["1b", "01", "1a"] :=
  ⟨rfl, rfl, by decide⟩

/-- C9 (amended): after every successful `updateMeta` the stored records are
the natural-comparator sort of the block's records, so every *adjacent* pair
of record IDs is in natural order; full pairwise order (the claim as stated)
additionally needs the comparator to be consistent on the key set, which
fails for keys with leading-zero digit runs (see
`records_not_naturally_ordered`). -/
theorem updateMeta_records_adjacent_natural_order (env : DatasetEnv) (now : Nat)
    (block : Block) (st : DS)
    (hok : (updateMeta env now block st).1 = .ok ()) :
    ∀ m1, (updateMeta env now block st).2.meta = some m1 →
      List.Chain' natLe (keysOf m1.records) := by
  intro m1 hm1
  unfold updateMeta fileStoreRead at hok hm1
  cases hm : st.meta with
  | none => rw [hm] at hok; exact absurd hok (by simp)
  | some meta0 =>
    rw [hm] at hok hm1
    simp only at hok hm1
    cases hb : block { meta0 with version := meta0.version + 1, updated := now } st.objects with
    | error p =>
      rw [hb] at hok
      obtain ⟨e, o⟩ := p
      exact absurd hok (by simp)
    | ok out =>
      obtain ⟨result, objs⟩ := out
      rw [hb] at hok hm1
      simp only at hok hm1
      cases hn : normaliseRecords (meta0.version + 1) result.records with
      | error p =>
        rw [hn] at hok
        obtain ⟨e, hs⟩ := p
        exact absurd hok (by simp)
      | ok out' =>
        obtain ⟨records', newHashes⟩ := out'
        rw [hn] at hok hm1
        simp only at hok hm1
        cases hv : env.validateConfig { result with
            records := jsSortBy (fun x y => natLeB x.1 y.1) records' } with
        | error e => rw [hv] at hok; exact absurd hok (by simp)
        | ok u =>
          cases u
          rw [hv] at hm1
          simp only [Option.some.injEq] at hm1
          subst hm1
          have htot : ∀ x y : String × RecordMeta,
              natLeB x.1 y.1 = true ∨ natLeB y.1 x.1 = true := by
            intro x y
            rcases natLe_total x.1 y.1 with h | h
            · exact Or.inl ((natLeB_eq_true_iff _ _).mpr h)
            · exact Or.inr ((natLeB_eq_true_iff _ _).mpr h)
          have hch := chain'_jsSortBy (fun x y : String × RecordMeta => natLeB x.1 y.1)
            htot records'
          simp only [keysOf]
          rw [List.chain'_map]
          exact hch.imp (fun {x y} h => (natLeB_eq_true_iff _ _).mp h)

/-! ## C1 — missing attachments fail the write and leave the dataset unchanged -/

/-- If some entry of a `writeEntries` call references an attachment the store
does not have, the per-entry loop throws `MISSING_ATTACHMENTS` with a
non-empty list of missing hash URLs drawn from the entries, and the object
store at throw time is the input store extended only by fresh hashes. -/
theorem writeLoop_missing (env : DatasetEnv) :
    ∀ (entries : List (String × Option JsValue)) (recs : List (String × RecordMeta))
      (objs : List Nat) (included : List String),
      (∀ id v, (id, some v) ∈ entries → env.validateRecord id v = .ok ()) →
      (∃ p ∈ entries, ∃ v, p.2 = some v ∧ missingLinks env v ≠ []) →
      ∃ ms L, writeLoop env entries recs objs included =
          .error (.missingAttachments ms, objs ++ L) ∧
        ms ≠ [] ∧
        (∀ u ∈ ms, ∃ p ∈ entries, ∃ v, p.2 = some v ∧
          ∃ l ∈ listHashURLs v, env.attHas l.hex = false ∧ l.url = u) ∧
        (∀ h ∈ L, h ∉ objs)
  | [], recs, objs, included, _, hmiss => by
      obtain ⟨p, hp, _⟩ := hmiss
      exact absurd hp (by simp)
  | (id, some v) :: rest, recs, objs, included, hval, hmiss => by
      by_cases hm : (missingLinks env v).isEmpty
      · -- this entry is fine; the offending entry is further down
        have hvr : env.validateRecord id v = .ok () := hval id v (by simp)
        have hmiss' : ∃ p ∈ rest, ∃ w, p.2 = some w ∧ missingLinks env w ≠ [] := by
          obtain ⟨p, hp, w, hw, hne⟩ := hmiss
          rcases List.mem_cons.mp hp with hhead | htail
          · subst hhead
            simp only [Option.some.injEq] at hw
            subst hw
            exact absurd (List.isEmpty_iff.mp hm) hne
          · exact ⟨p, htail, w, hw, hne⟩
        have hval' : ∀ id' v', (id', some v') ∈ rest → env.validateRecord id' v' = .ok () :=
          fun id' v' h => hval id' v' (List.mem_cons_of_mem _ h)
        set objs' := if env.hashFn v ∈ objs then objs else objs ++ [env.hashFn v] with hobjs'
        set recs' :=
          if (lookupKey id recs).map (·.hash) = some (env.hashFn v) then recs
          else setKey id ⟨env.hashFn v, (listHashURLs v).map (·.url), none⟩ recs with hrecs'
        obtain ⟨ms, L', hrun, hne, hprop, hfresh⟩ :=
          writeLoop_missing env rest recs' objs' (included ++ [id]) hval' hmiss'
        refine ⟨ms, (if env.hashFn v ∈ objs then [] else [env.hashFn v]) ++ L', ?_, hne, ?_, ?_⟩
        · rw [writeLoop]
          simp only [hm, if_true]
          rw [hvr]
          simp only
          rw [hrun, hobjs']
          by_cases hin : env.hashFn v ∈ objs <;> simp [hin]
        · intro u hu
          obtain ⟨p, hp, w, hw, hl⟩ := hprop u hu
          exact ⟨p, List.mem_cons_of_mem _ hp, w, hw, hl⟩
        · intro h hh
          rcases List.mem_append.mp hh with hh | hh
          · by_cases hin : env.hashFn v ∈ objs
            · simp [hin] at hh
            · simp [hin] at hh
              subst hh
              exact hin
          · have := hfresh h hh
            intro hcontra
            apply this
            rw [hobjs']
            by_cases hin : env.hashFn v ∈ objs <;> simp [hin, hcontra]
      · -- the failure happens on this entry
        refine ⟨(missingLinks env v).map (·.url), [], ?_, ?_, ?_, by simp⟩
        · rw [writeLoop]
          simp [hm]
        · simpa [List.isEmpty_iff] using hm
        · intro u hu
          obtain ⟨l, hl, hlu⟩ := List.mem_map.mp hu
          have hl' := List.mem_filter.mp hl
          refine ⟨(id, some v), by simp, v, rfl, l, hl'.1, ?_, hlu⟩
          simpa using hl'.2
  | (id, none) :: rest, recs, objs, included, hval, hmiss => by
      have hmiss' : ∃ p ∈ rest, ∃ w, p.2 = some w ∧ missingLinks env w ≠ [] := by
        obtain ⟨p, hp, w, hw, hne⟩ := hmiss
        rcases List.mem_cons.mp hp with hhead | htail
        · subst hhead; simp at hw
        · exact ⟨p, htail, w, hw, hne⟩
      have hval' : ∀ id' v', (id', some v') ∈ rest → env.validateRecord id' v' = .ok () :=
        fun id' v' h => hval id' v' (List.mem_cons_of_mem _ h)
      obtain ⟨ms, L, hrun, hne, hprop, hfresh⟩ :=
        writeLoop_missing env rest (eraseKey id recs) objs included hval' hmiss'
      refine ⟨ms, L, ?_, hne, ?_, hfresh⟩
      · rw [writeLoop, hrun]
      · intro u hu
        obtain ⟨p, hp, w, hw, hl⟩ := hprop u hu
        exact ⟨p, List.mem_cons_of_mem _ hp, w, hw, hl⟩

/-- A reachable dataset state carrying stale previous-version objects: the
overwrite of the C4 scenario has left records `{a}` (object hash 8) while
`b`'s and `c`'s objects (3 and 4) and `a`'s old object (2) are still stored,
retained transiently for the previous version until the next update's
retain. -/
def demoSt2 : DS := (writeEntries demoEnv 6 [("a", some (.num 7))] true demoSt1).2

/-- The meta stored in `demoSt2`. -/
def demoM0 : DatasetMeta := ⟨2, 0, 6, [("a", ⟨8, [], some 2⟩)]⟩

/-- C1 counterexample: in a reachable state with stale previous-version
objects, a `writeEntries` call that fails with `MISSING_ATTACHMENTS` does
*not* leave the stored objects as they were: the `finally` retain runs with
only the current records' hashes and collects the stale objects — here the
store shrinks from `[2, 3, 4, 8]` to `[8]` although the meta (version and
records) is untouched.  So "the dataset is left unchanged: its version,
records, and stored objects are the same as before the call" is false as
stated. -/
theorem writeEntries_missing_attachments_changes_objects :
    (writeEntries demoEnv 9
        [("k", some (.obj [("v", .str "hash://sha256/deadbeef")]))] false demoSt2).1
      = .error (.missingAttachments ["hash://sha256/deadbeef"]) ∧
    (writeEntries demoEnv 9
        [("k", some (.obj [("v", .str "hash://sha256/deadbeef")]))] false demoSt2).2.meta
      = demoSt2.meta ∧
    demoSt2.objects = [2, 3, 4, 8] ∧
    (writeEntries demoEnv 9
        [("k", some (.obj [("v", .str "hash://sha256/deadbeef")]))] false demoSt2).2.objects
      = [8] ∧
    ([8] : List Nat) ≠ [2, 3, 4, 8] :=
  ⟨rfl, rfl, rfl, rfl, by decide⟩

/-- C1 (amended): a `writeEntries` call, any of whose entries references at
least one hash URL absent from the attachment store, fails with
`MISSING_ATTACHMENTS` carrying a non-empty list of missing hash URLs from
those entries, and the meta — version and records — is exactly what it was
before the call.  The stored objects, however, are not in general unchanged:
the `finally` retain keeps every previously stored object the current
records reference, leaves only record-referenced objects stored, and
collects every stored object the current records do not reference (stale
previous-version objects) — see
`writeEntries_missing_attachments_changes_objects`.  The hypotheses ask only
that the dataset exist and that the entries pass source-specific record
validation. -/
theorem writeEntries_missing_attachments (env : DatasetEnv) (now : Nat)
    (entries : List (String × Option JsValue)) (ow : Bool) (st : DS) (m0 : DatasetMeta)
    (hmeta : st.meta = some m0)
    (hval : ∀ id v, (id, some v) ∈ entries → env.validateRecord id v = .ok ())
    (hmiss : ∃ p ∈ entries, ∃ v, p.2 = some v ∧ missingLinks env v ≠ []) :
    ∃ ms, (writeEntries env now entries ow st).1 = .error (.missingAttachments ms) ∧
      ms ≠ [] ∧
      (∀ u ∈ ms, ∃ p ∈ entries, ∃ v, p.2 = some v ∧
        ∃ l ∈ listHashURLs v, env.attHas l.hex = false ∧ l.url = u) ∧
      (writeEntries env now entries ow st).2.meta = st.meta ∧
      (∀ h ∈ st.objects, h ∈ recordHashes m0.records →
        h ∈ (writeEntries env now entries ow st).2.objects) ∧
      (∀ h ∈ (writeEntries env now entries ow st).2.objects, h ∈ recordHashes m0.records) ∧
      (∀ h ∈ st.objects, h ∉ recordHashes m0.records →
        h ∉ (writeEntries env now entries ow st).2.objects) := by
  obtain ⟨ms, L, hrun, hne, hprop, hfresh⟩ :=
    writeLoop_missing env entries m0.records st.objects [] hval hmiss
  have hres : writeEntries env now entries ow st =
      (.error (.missingAttachments ms),
        ⟨st.meta, (st.objects ++ L).filter (fun h => h ∈ recordHashes m0.records)⟩) := by
    unfold writeEntries updateMeta fileStoreRead writeEntriesBlock
    rw [hmeta]
    simp only
    rw [hrun]
  refine ⟨ms, ?_, hne, hprop, ?_, ?_, ?_, ?_⟩
  · rw [hres]
  · rw [hres]
  · intro h hh hrec
    rw [hres]
    exact List.mem_filter.mpr ⟨List.mem_append_left _ hh, by simpa using hrec⟩
  · intro h hh
    rw [hres] at hh
    simpa using (List.mem_filter.mp hh).2
  · intro h hh hrec
    rw [hres]
    intro hcontra
    exact hrec (by simpa using (List.mem_filter.mp hcontra).2)

/-- C1 (amended) witness: the failing write on `demoSt2` errors with the
missing URL, keeps the meta, keeps the referenced object 8, stores only
record-referenced objects, and drops the stale objects 2, 3 and 4. -/
theorem writeEntries_missing_attachments_witness :
    ∃ ms, (writeEntries demoEnv 9
        [("k", some (.obj [("v", .str "hash://sha256/deadbeef")]))] false demoSt2).1
        = .error (.missingAttachments ms) ∧
      ms ≠ [] ∧
      (∀ u ∈ ms, ∃ p ∈ [("k", some (JsValue.obj [("v", JsValue.str "hash://sha256/deadbeef")]))],
        ∃ v, p.2 = some v ∧
        ∃ l ∈ listHashURLs v, demoEnv.attHas l.hex = false ∧ l.url = u) ∧
      (writeEntries demoEnv 9
        [("k", some (.obj [("v", .str "hash://sha256/deadbeef")]))] false demoSt2).2.meta
        = demoSt2.meta ∧
      (∀ h ∈ demoSt2.objects, h ∈ recordHashes demoM0.records →
        h ∈ (writeEntries demoEnv 9
          [("k", some (.obj [("v", .str "hash://sha256/deadbeef")]))] false demoSt2).2.objects) ∧
      (∀ h ∈ (writeEntries demoEnv 9
          [("k", some (.obj [("v", .str "hash://sha256/deadbeef")]))] false demoSt2).2.objects,
        h ∈ recordHashes demoM0.records) ∧
      (∀ h ∈ demoSt2.objects, h ∉ recordHashes demoM0.records →
        h ∉ (writeEntries demoEnv 9
          [("k", some (.obj [("v", .str "hash://sha256/deadbeef")]))] false demoSt2).2.objects) :=
  writeEntries_missing_attachments demoEnv 9
    [("k", some (.obj [("v", .str "hash://sha256/deadbeef")]))] false demoSt2 demoM0
    rfl
    (fun id v _ => rfl)
    ⟨("k", some (.obj [("v", .str "hash://sha256/deadbeef")])), by simp,
      .obj [("v", .str "hash://sha256/deadbeef")], rfl, by decide⟩

/-! ## C4 — overwrite semantics -/

theorem normaliseRecords_singleton (dv : Nat) (k : String) (r : RecordMeta)
    (h : r.version.getD dv ≠ 0) :
    normaliseRecords dv [(k, r)] =
      .ok ([(k, { r with version := some (r.version.getD dv) })], [r.hash]) := by
  simp [normaliseRecords, h]

/-- C4: on a dataset holding records `a`, `b`, `c`, a `writeEntries` call with
`overwrite = true` that writes only record `a` succeeds and leaves a meta
whose records are exactly `{a}`; the objects previously stored for `b` and
`c` survive the call itself only through the transient prev-version retain,
and the next successful `updateMeta` (here a no-op block) garbage collects
them: afterwards every stored object is the written record's hash. -/
theorem writeEntries_overwrite_only_written (env : DatasetEnv) (now now2 : Nat)
    (a b c : String) (ra rb rc : RecordMeta) (v : JsValue) (st : DS) (m0 : DatasetMeta)
    (hmeta : st.meta = some m0)
    (hrecords : m0.records = [(a, ra), (b, rb), (c, rc)])
    (hab : a ≠ b) (hac : a ≠ c)
    (hra : ∀ n, ra.version = some n → 0 < n)
    (hval : env.validateRecord a v = .ok ())
    (hnolinks : missingLinks env v = [])
    (hvc : ∀ m, env.validateConfig m = .ok ()) :
    (writeEntries env now [(a, some v)] true st).1 = .ok () ∧
    (∃ m1, (writeEntries env now [(a, some v)] true st).2.meta = some m1 ∧
      keysOf m1.records = [a]) ∧
    ((updateMeta env now2 (fun draft objs => .ok (draft, objs))
        (writeEntries env now [(a, some v)] true st).2).1 = .ok () ∧
      ∀ h ∈ (updateMeta env now2 (fun draft objs => .ok (draft, objs))
        (writeEntries env now [(a, some v)] true st).2).2.objects, h = env.hashFn v) := by
  have hba : b ≠ a := Ne.symm hab
  have hca : c ≠ a := Ne.symm hac
  -- the per-entry loop and the overwrite filter
  have hloop : writeLoop env [(a, some v)] m0.records st.objects [] =
      .ok ((if ra.hash = env.hashFn v then [(a, ra), (b, rb), (c, rc)]
            else [(a, ⟨env.hashFn v, (listHashURLs v).map (·.url), none⟩), (b, rb), (c, rc)]),
           (if env.hashFn v ∈ st.objects then st.objects else st.objects ++ [env.hashFn v]),
           [a]) := by
    rw [writeLoop]
    simp only [hnolinks, List.isEmpty_nil, if_true, hval, hrecords]
    simp [writeLoop, lookupKey, setKey]
  have hfilterA : List.filter
      (fun kv => decide (kv.1 ∈ [a] ∨ kv.1 ∉ keysOf [(a, ra), (b, rb), (c, rc)]))
      [(a, ra), (b, rb), (c, rc)] = [(a, ra)] := by
    simp [keysOf, hba, hca]
  have hfilterB : List.filter
      (fun kv => decide (kv.1 ∈ [a] ∨ kv.1 ∉ keysOf [(a, ra), (b, rb), (c, rc)]))
      [(a, ⟨env.hashFn v, (listHashURLs v).map (·.url), none⟩), (b, rb), (c, rc)]
      = [(a, ⟨env.hashFn v, (listHashURLs v).map (·.url), none⟩)] := by
    simp [keysOf, hba, hca]
  unfold writeEntries updateMeta fileStoreRead writeEntriesBlock
  rw [hmeta]
  simp only
  rw [hloop]
  simp only [hrecords]
  by_cases hsame : ra.hash = env.hashFn v
  · have hver : ra.version.getD (m0.version + 1) ≠ 0 := by
      cases hv : ra.version with
      | none => simp
      | some n => have := hra n hv; simp [hv]; omega
    rw [if_pos hsame]
    simp only [if_true]
    rw [hfilterA]
    rw [normaliseRecords_singleton _ _ _ hver]
    simp only [jsSortBy, jsOrderedInsert, hvc]
    refine ⟨trivial, ⟨_, rfl, by simp [keysOf]⟩, ?_⟩
    rw [normaliseRecords_singleton _ _ _ (by simpa using hver)]
    simp only [jsSortBy, jsOrderedInsert, hvc]
    refine ⟨trivial, ?_⟩
    intro h hh
    simp only [List.mem_filter, recordHashes, List.map_cons, List.map_nil,
      decide_eq_true_eq, List.mem_append, List.mem_singleton] at hh
    rcases hh with ⟨_, hh | hh⟩ <;> rw [hh, hsame]
  · rw [if_neg hsame]
    simp only [if_true]
    rw [hfilterB]
    rw [normaliseRecords_singleton _ _ _ (by simp)]
    simp only [jsSortBy, jsOrderedInsert, hvc]
    refine ⟨trivial, ⟨_, rfl, by simp [keysOf]⟩, ?_⟩
    rw [normaliseRecords_singleton _ _ _ (by simp)]
    simp only [jsSortBy, jsOrderedInsert, hvc]
    refine ⟨trivial, ?_⟩
    intro h hh
    simp only [List.mem_filter, recordHashes, List.map_cons, List.map_nil,
      decide_eq_true_eq, List.mem_append, List.mem_singleton] at hh
    rcases hh with ⟨_, hh | hh⟩ <;> rw [hh]
/-- C4 witness: on the dataset with records `a`, `b`, `c`, overwriting with
only `a` leaves records `{a}` and the following update collects `b`'s and
`c`'s objects. -/
theorem writeEntries_overwrite_only_written_witness :
    (writeEntries demoEnv 6 [("a", some (.num 7))] true demoSt1).1 = .ok () ∧
    (∃ m1, (writeEntries demoEnv 6 [("a", some (.num 7))] true demoSt1).2.meta = some m1 ∧
      keysOf m1.records = ["a"]) ∧
    ((updateMeta demoEnv 7 (fun draft objs => .ok (draft, objs))
        (writeEntries demoEnv 6 [("a", some (.num 7))] true demoSt1).2).1 = .ok () ∧
      ∀ h ∈ (updateMeta demoEnv 7 (fun draft objs => .ok (draft, objs))
        (writeEntries demoEnv 6 [("a", some (.num 7))] true demoSt1).2).2.objects,
        h = demoEnv.hashFn (.num 7)) :=
  writeEntries_overwrite_only_written demoEnv 6 7 "a" "b" "c"
    { hash := 2, links := [], version := some 1 }
    { hash := 3, links := [], version := some 1 }
    { hash := 4, links := [], version := some 1 }
    (.num 7) demoSt1
    { version := 1, created := 0, updated := 5,
      records := [("a", { hash := 2, links := [], version := some 1 }),
        ("b", { hash := 3, links := [], version := some 1 }),
        ("c", { hash := 4, links := [], version := some 1 })] }
    (by rfl) rfl (by decide) (by decide)
    (fun n h => by cases h; omega) rfl rfl (fun _ => rfl)

/-- The meta stored by the counterexample run of
`records_not_naturally_ordered`. -/
def demoC9Meta : DatasetMeta :=
  ⟨1, 0, 5, [("1b", ⟨2, [], some 1⟩), ("01", ⟨3, [], some 1⟩), ("1a", ⟨4, [], some 1⟩)]⟩

/-- C9 (amended) witness: the stored order of the counterexample run still has
all adjacent pairs in natural order. -/
theorem updateMeta_records_adjacent_natural_order_witness :
    List.Chain' natLe (keysOf demoC9Meta.records) :=
  updateMeta_records_adjacent_natural_order demoEnv 5
    (writeEntriesBlock demoEnv
      [("1b", some (.num 1)), ("01", some (.num 2)), ("1a", some (.num 3))] false)
    demoSt0 rfl demoC9Meta rfl

/-! ## Attachment store (`models/attachments`)

Blob and meta stores keyed by hex hash, a process-wide hold table, `link`,
and the GC oracle `validate`.  `readPath.meta` (the read-path resolver, whose
module resolves each linker path to the links its record carries) is passed
in as `resolveLinks : String → Option (List String)`; `none` models a path
that errors or yields no `links` array. -/

/-- An attachment's metadata file. -/
structure AttMeta where
  created : Nat
  updated : Nat
  linkers : List String
deriving DecidableEq

/-- The attachment store's state: blob files, meta files, and the in-memory
hold refcount table, all keyed by lowercase-hex hash. -/
structure AttState where
  blobs : List String
  metas : List (String × AttMeta)
  holding : List (String × Nat)
deriving DecidableEq

/-- `attachments.has(hash)`: both the blob and the meta exist. -/
def attHasOp (st : AttState) (hexHash : String) : Bool :=
  st.blobs.contains hexHash && (lookupKey hexHash st.metas).isSome

/-- `attachments.link(hash, ...dataPaths)` (source lines 105–118): under the
per-hash lock, fail if the meta is missing; compute the dataPaths not yet in
`linkers`; if there are any, append them and refresh `updated` and write the
meta back; otherwise the update callback returns `undefined` and nothing —
including the `updated` timestamp — is written. -/
def attLink (now : Nat) (hexHash : String) (dataPaths : List String) (st : AttState) :
    Except Err Unit × AttState :=
  match lookupKey hexHash st.metas with
  | none => (.error .attachmentMissing, st)
  | some meta =>
    let missing := dataPaths.filter (fun x => x ∉ meta.linkers)
    if missing.length > 0 then
      let meta' : AttMeta := { meta with linkers := meta.linkers ++ missing, updated := now }
      (.ok (), { st with metas := setKey hexHash meta' st.metas })
    else (.ok (), st)

/-- `attachments.validate(hash)` (source lines 202–238): re-resolve every
linker path, keep the path once per link that still matches
`hash://sha256/<hex>` (case-insensitively), write the pruned linker list
back, and, when no linker survived and the hash is not held, delete both the
blob and the meta.  Returns the `retain` flag — whether live linkers were
found — which is `false` even when a hold keeps the attachment on disk. -/
def attValidate (resolveLinks : String → Option (List String)) (hexHash : String)
    (st : AttState) : Bool × AttState :=
  let hashURL := "hash://sha256/" ++ jsToLower hexHash
  let (retain, metas') :=
    match lookupKey hexHash st.metas with
    | none => (false, st.metas)
    | some meta =>
      let newLinkers := meta.linkers.flatMap (fun p =>
        match resolveLinks p with
        | some links => (links.filter (fun l => strHasPrefix hashURL (jsToLower l))).map (fun _ => p)
        | none => [])
      (newLinkers.length > 0, setKey hexHash { meta with linkers := newLinkers } st.metas)
  if !retain && (lookupKey hexHash st.holding).isNone then
    (retain, { blobs := st.blobs.filter (fun b => b ≠ hexHash),
               metas := eraseKey hexHash metas',
               holding := st.holding })
  else (retain, { st with metas := metas' })

/-! ## C3 — validate's return value versus retention on disk -/

/-- An attachment whose only linker no longer references it, but which is
held by an in-flight writer. -/
def demoAttSt : AttState :=
  { blobs := ["aa"],
    metas := [("aa", { created := 0, updated := 0, linkers := ["datasets/u/n/k"] })],
    holding := [("aa", 1)] }

/-- The linker's record still exists but carries no links any more. -/
def demoResolve : String → Option (List String) := fun _ => some []

/-- C3: evaluating `validate` at the failing input.  The pruned linker list
is empty but the hash is held, so the deletion branch is skipped (first part
of the claim — delete exactly when pruned-empty and not held — holds and the
attachment stays on disk), yet `validate` returns `false`: the claimed
equivalence "returns true iff retained on disk" is violated, contradicting
the function's own doc comment ("true if the attachment remains in
storage"). -/
theorem validate_held_returns_false_but_retained :
    (attValidate demoResolve "aa" demoAttSt).1 = false ∧
    attHasOp (attValidate demoResolve "aa" demoAttSt).2 "aa" = true ∧
    (lookupKey "aa" (attValidate demoResolve "aa" demoAttSt).2.metas).map (·.linkers)
      = some [] :=
  ⟨rfl, rfl, rfl⟩

/-! ## C10 — link is a no-op when every path is already a linker -/

/-- `AttState` with its meta store replaced. -/
def withMetas (st : AttState) (ms : List (String × AttMeta)) : AttState :=
  { st with metas := ms }

/-- C10: when the attachment's meta exists and every given dataPath is
already in its `linkers`, `link` succeeds and leaves the stored meta —
including the `updated` timestamp — entirely unchanged; when at least one
path is new, exactly the missing paths are appended in order and `updated`
is refreshed to the current clock. -/
theorem attLink_frame (now : Nat) (hexHash : String) (dataPaths : List String)
    (st : AttState) (meta : AttMeta)
    (hmeta : lookupKey hexHash st.metas = some meta) :
    ((∀ p ∈ dataPaths, p ∈ meta.linkers) →
      attLink now hexHash dataPaths st = (.ok (), st)) ∧
    ((∃ p ∈ dataPaths, p ∉ meta.linkers) →
      attLink now hexHash dataPaths st = (.ok (), withMetas st
        (setKey hexHash
          ⟨meta.created, now, meta.linkers ++ dataPaths.filter (fun x => x ∉ meta.linkers)⟩
          st.metas))) := by
  constructor
  · intro hall
    unfold attLink
    rw [hmeta]
    dsimp only
    have hnil : dataPaths.filter (fun x => x ∉ meta.linkers) = [] :=
      List.filter_eq_nil_iff.mpr (fun p hp => by simpa using hall p hp)
    have hcond : ¬ ((dataPaths.filter (fun x => x ∉ meta.linkers)).length > 0) := by
      rw [hnil]; simp
    rw [if_neg hcond]
  · rintro ⟨p, hp, hnp⟩
    unfold attLink
    rw [hmeta]
    dsimp only
    have hmem : p ∈ dataPaths.filter (fun x => x ∉ meta.linkers) :=
      List.mem_filter.mpr ⟨hp, by simpa using hnp⟩
    have hcond : (dataPaths.filter (fun x => x ∉ meta.linkers)).length > 0 :=
      List.length_pos.mpr (fun h => by rw [h] at hmem; exact absurd hmem (by simp))
    rw [if_pos hcond]
    rfl

/-- C10 witness: a no-op link on an already-linked path, and an extending
link adding a fresh path. -/
theorem attLink_frame_witness :
    attLink 99 "aa" ["datasets/u/n/k"] demoAttSt = (.ok (), demoAttSt) ∧
    attLink 99 "aa" ["datasets/u/n/k2"] demoAttSt = (.ok (), withMetas demoAttSt
      (setKey "aa" ⟨0, 99, ["datasets/u/n/k", "datasets/u/n/k2"]⟩ demoAttSt.metas)) := by
  constructor
  · exact (attLink_frame 99 "aa" ["datasets/u/n/k"] demoAttSt
      { created := 0, updated := 0, linkers := ["datasets/u/n/k"] } rfl).1
      (by intro p hp; simp at hp; simp [hp])
  · exact (attLink_frame 99 "aa" ["datasets/u/n/k2"] demoAttSt
      { created := 0, updated := 0, linkers := ["datasets/u/n/k"] } rfl).2
      ⟨"datasets/u/n/k2", by simp, by decide⟩

/-! ## Codec registry lookup (`models/codec/index.js`) -/

/-- The codecs reachable in the registry model. -/
inductive CodecId where
  | cbor | json | xml
deriving DecidableEq

/-- The XML codec's `handles` list (source `models/codec/xml` lines 87–89,
including its duplicated `text/xml`). -/
def xmlHandles : List String :=
  ["application/xml", "text/xml", "application/rdf+xml", "application/rss+xml",
   "application/atom+xml", "text/xml", "application/xhtml+xml"]

/-- The XML codec's `extensions` list. -/
def xmlExtensions : List String := ["xml", "rss", "atom", "xhtml"]

/-- Modelled from the spec: the CBOR and JSON codec modules are not among the
provided sources; per the spec's codec table and the server's body-decoding
they handle `application/cbor` and `application/json` with extensions `cbor`
and `json`.  The registry model carries these two plus the XML codec, whose
lists are in the sources; the remaining codecs are irrelevant to the lookup
behaviour verified here. -/
def mediaTypeHandlers : List (String × CodecId) :=
  ["application/cbor"].map (fun m => (m, CodecId.cbor)) ++
  ["application/json"].map (fun m => (m, CodecId.json)) ++
  xmlHandles.map (fun m => (m, CodecId.xml))

/-- The derived extension table, in the same registry order. -/
def extensionHandlers : List (String × CodecId) :=
  ["cbor"].map (fun e => (e, CodecId.cbor)) ++
  ["json"].map (fun e => (e, CodecId.json)) ++
  xmlExtensions.map (fun e => (e, CodecId.xml))

/-- `query.endsWith('.' + ext)`. -/
def strEndsWith (suffix s : String) : Bool := suffix.data.isSuffixOf s.data

/-- The extension loop of `codec.for` (source lines 43–47): first extension
whose name equals the query or which the query ends in (after a dot) wins. -/
def extLookup (q : String) : List (String × CodecId) → Option CodecId
  | [] => none
  | (ext, c) :: rest =>
      if q = ext ∨ strEndsWith ("." ++ ext) q then some c else extLookup q rest

/-- `codec.for(query)` (source lines 38–49): lowercase the query; if the
part before the first `;` names a registered media type, return the handler
registered under the *whole* query string; otherwise scan the extension
table. -/
def forQuery (query : String) : Option CodecId :=
  let q := jsToLower query
  if (lookupKey (⟨q.data.takeWhile (· ≠ ';')⟩ : String) mediaTypeHandlers).isSome then
    lookupKey q mediaTypeHandlers
  else
    extLookup q extensionHandlers

/-! ## C6 — media-type lookup with parameters -/

/-- C6: evaluating `codec.for` at the failing input.  A media type carrying
`;parameters` passes the guard (the part before the `;` is registered) but
the lookup is then performed with the full parameterised string, which is
not a table key, so `for` returns `undefined` instead of the JSON codec —
contradicting its doc comment ("returns codec if a matching media type or
file extension is found").  Without parameters the codec is returned, and an
unknown type correctly yields `undefined`. -/
theorem codec_for_media_type_with_parameters :
    forQuery "application/json; charset=utf-8" = none ∧
    forQuery "application/json" = some CodecId.json ∧
    forQuery "nonsense/type" = none :=
  ⟨rfl, rfl, rfl⟩

/-! ## Server body decoding and error statuses (`server.js`, legacy server) -/

/-- The information the error-handler middleware inspects on a thrown
JavaScript error. -/
structure JsError where
  statusCode : Option Nat
  code : String
  name : String
  stack : String
deriving DecidableEq

/-- Does `sub` occur contiguously in the list? -/
def subOccurs (sub : List Char) : List Char → Bool
  | [] => sub.isEmpty
  | c :: rest => sub.isPrefixOf (c :: rest) || subOccurs sub rest

/-- `stack.includes(sub)`. -/
def stackIncludes (stack sub : String) : Bool := subOccurs sub.data stack.data

/-- The error-handler middleware of `server.js` (lines 94–103): an explicit
`statusCode` wins; `ENOENT` maps to 404; a `SyntaxError` or an error whose
stack passes through the borc CBOR decoder maps to 400; anything else 500. -/
def errorHandlerStatus (e : JsError) : Nat :=
  match e.statusCode with
  | some s => s
  | none =>
    if e.code = "ENOENT" then 404
    else if e.name = "SyntaxError" ∨ stackIncludes e.stack "/borc/src/decoder.js" then 400
    else 500

/-- The body-decode middleware of the legacy server (`part_000` lines
24–35): a JSON or CBOR body that fails to decode is answered directly with
status 415; a clean decode (or another content type) falls through to the
next middleware (`none`). -/
def legacyBodyDecodeStatus (isJson isCbor : Bool) (jsonOk cborOk : Bool) : Option Nat :=
  if isJson then (if jsonOk then none else some 415)
  else if isCbor then (if cborOk then none else some 415)
  else none

/-! ## C7 — status for request bodies that fail to decode -/

/-- C7 counterexample: the legacy body-decode middleware answers a failed
JSON decode with status 415, not 400 — the claim that both decoding paths
respond 400 fails on this path (and likewise for CBOR, which takes the same
catch). -/
theorem legacy_decode_failure_responds_415 :
    legacyBodyDecodeStatus true false false false = some 415 ∧
    legacyBodyDecodeStatus false true false false = some 415 ∧
    (415 : Nat) ≠ 400 :=
  ⟨rfl, rfl, by decide⟩

/-- C7 (amended): in the current `server.js` pipeline both decode-failure
paths respond 400 — a JSON body throws a `SyntaxError` and a CBOR body
throws from borc's decoder, and the error handler maps either to 400 (when
the error carries no explicit `statusCode` and is not an `ENOENT`); the
legacy middleware instead responds 415 (see
`legacy_decode_failure_responds_415`). -/
theorem error_handler_maps_decode_failures_to_400 (e : JsError)
    (hsc : e.statusCode = none) (hcode : e.code ≠ "ENOENT")
    (h : e.name = "SyntaxError" ∨ stackIncludes e.stack "/borc/src/decoder.js" = true) :
    errorHandlerStatus e = 400 := by
  unfold errorHandlerStatus
  rw [hsc]
  simp only [if_neg hcode]
  rw [if_pos (by simpa using h)]

/-- C7 (amended) witness: a JSON `SyntaxError` and a borc decode error both
map to 400. -/
theorem error_handler_maps_decode_failures_to_400_witness :
    errorHandlerStatus
      { statusCode := none, code := "", name := "SyntaxError", stack := "SyntaxError: x" } = 400 ∧
    errorHandlerStatus
      { statusCode := none, code := "", name := "Error",
        stack := "Error: x\n at /app/node_modules/borc/src/decoder.js:1:1" } = 400 :=
  ⟨error_handler_maps_decode_failures_to_400 _ rfl (by decide) (Or.inl rfl),
   error_handler_maps_decode_failures_to_400 _ rfl (by decide) (Or.inr (by decide))⟩

/-! ## XML codec (`models/codec/xml`)

The codec converts arbitrary structured values to a JsonML document (a
JavaScript array `[tag, attrs?, ...children]`, here represented with
`JsValue.arr`/`JsValue.obj`/`JsValue.str`), serialises it with `buildXML`,
and parses incoming XML with `onml.parse`.  The serialise/parse round
through XML text is modelled by `xmlTransport`: XML cannot represent the
difference between an element with an empty attribute map and one with no
attribute slot, and `onml` returns JsonML normal form, which omits empty
attribute objects (the codec's own `expandElement` and its defensive
`typeof jsonml[1]` checks exist precisely because parsed elements may lack
the attrs slot); empty text nodes likewise do not survive serialisation. -/

/-- `(number).toString()` for the integral numbers of the model. -/
def jsNumToString (n : Int) : String := toString n

/-- Zero-pad to 2 digits. -/
def pad2 (n : Nat) : String := if n < 10 then "0" ++ toString n else toString n

/-- Zero-pad to 3 digits. -/
def pad3 (n : Nat) : String :=
  if n < 10 then "00" ++ toString n else if n < 100 then "0" ++ toString n else toString n

/-- Zero-pad to 4 digits. -/
def pad4 (n : Nat) : String :=
  if n < 10 then "000" ++ toString n
  else if n < 100 then "00" ++ toString n
  else if n < 1000 then "0" ++ toString n
  else toString n

/-- `Date.prototype.toISOString` for timestamps whose year falls in
0000–9999 (the civil-from-days algorithm; years outside that range use an
expanded form not modelled here). -/
def toISOString (ms : Int) : String :=
  let day : Int := ms.fdiv 86400000
  let msod : Nat := (ms - day * 86400000).toNat
  let z : Int := day + 719468
  let era : Int := z.fdiv 146097
  let doe : Nat := (z - era * 146097).toNat
  let yoe : Nat := (doe - doe / 1460 + doe / 36524 - doe / 146096) / 365
  let y : Int := (yoe : Int) + era * 400
  let doy : Nat := doe - (365 * yoe + yoe / 4 - yoe / 100)
  let mp : Nat := (5 * doy + 2) / 153
  let d : Nat := doy - (153 * mp + 2) / 5 + 1
  let m : Nat := if mp < 10 then mp + 3 else mp - 9
  let year : Int := if m ≤ 2 then y + 1 else y
  pad4 year.toNat ++ "-" ++ pad2 m ++ "-" ++ pad2 d ++ "T" ++
    pad2 (msod / 3600000) ++ ":" ++ pad2 (msod % 3600000 / 60000) ++ ":" ++
    pad2 (msod % 60000 / 1000) ++ "." ++ pad3 (msod % 1000) ++ "Z"

/-- Days since the epoch of a civil date (inverse of the above). -/
def daysFromCivil (year : Int) (m d : Nat) : Int :=
  let y : Int := if m ≤ 2 then year - 1 else year
  let era : Int := (if y ≥ 0 then y else y - 399).fdiv 400
  let yoe : Nat := (y - era * 400).toNat
  let mp : Nat := if m > 2 then m - 3 else m + 9
  let doy : Nat := (153 * mp + 2) / 5 + d - 1
  let doe : Nat := yoe * 365 + yoe / 4 - yoe / 100 + doy
  era * 146097 + (doe : Int) - 719468

/-- Parse a fixed count of decimal digits. -/
def parseDigits : Nat → List Char → Option (Nat × List Char)
  | 0, cs => some (0, cs)
  | _ + 1, [] => none
  | n + 1, c :: cs =>
      if isDigitCode c then
        match parseDigits n cs with
        | some (v, rest) => some ((c.toNat - 48) * 10 ^ n + v, rest)
        | none => none
      else none

/-- Parse `YYYY-MM-DDTHH:MM:SS.mmmZ` to epoch milliseconds (the exact shape
`toISOString` produces); anything else is an invalid date. -/
def parseISO (s : String) : Option Int :=
  match parseDigits 4 s.data with
  | some (y, '-' :: r1) =>
    match parseDigits 2 r1 with
    | some (mo, '-' :: r2) =>
      match parseDigits 2 r2 with
      | some (d, 'T' :: r3) =>
        match parseDigits 2 r3 with
        | some (h, ':' :: r4) =>
          match parseDigits 2 r4 with
          | some (mi, ':' :: r5) =>
            match parseDigits 2 r5 with
            | some (sec, '.' :: r6) =>
              match parseDigits 3 r6 with
              | some (msv, ['Z']) =>
                  some (daysFromCivil y mo d * 86400000 +
                    ((h * 3600000 + mi * 60000 + sec * 1000 + msv : Nat) : Int))
              | _ => none
            | _ => none
          | _ => none
        | _ => none
      | _ => none
    | _ => none
  | _ => none

/-- `new Date(text)` on the decode path; an unparsable text yields an
invalid date, modelled as `undef`. -/
def jsNewDate (s : String) : JsValue :=
  match parseISO s with
  | some ms => .date ms
  | none => .undefined

/-- The base64 alphabet. -/
def b64Char (n : Nat) : Char :=
  if n < 26 then Char.ofNat (65 + n)
  else if n < 52 then Char.ofNat (97 + (n - 26))
  else if n < 62 then Char.ofNat (48 + (n - 52))
  else if n = 62 then '+' else '/'

/-- Base64-encode in 3-byte groups with `=` padding. -/
def b64EncodeGroups : List Nat → List Char
  | [] => []
  | [b0] => [b64Char (b0 / 4), b64Char (b0 % 4 * 16), '=', '=']
  | [b0, b1] => [b64Char (b0 / 4), b64Char (b0 % 4 * 16 + b1 / 16), b64Char (b1 % 16 * 4), '=']
  | b0 :: b1 :: b2 :: rest =>
      b64Char (b0 / 4) :: b64Char (b0 % 4 * 16 + b1 / 16) ::
      b64Char (b1 % 16 * 4 + b2 / 64) :: b64Char (b2 % 64) :: b64EncodeGroups rest

/-- `buffer.toString('base64')`. -/
def base64Encode (bytes : List Nat) : String := ⟨b64EncodeGroups bytes⟩

/-- Value of one base64 character; `none` for padding or foreign characters. -/
def b64Val (c : Char) : Option Nat :=
  let n := c.toNat
  if 65 ≤ n && n ≤ 90 then some (n - 65)
  else if 97 ≤ n && n ≤ 122 then some (n - 97 + 26)
  else if 48 ≤ n && n ≤ 57 then some (n - 48 + 52)
  else if c = '+' then some 62
  else if c = '/' then some 63
  else none

/-- Base64-decode in 4-character groups. -/
def b64DecodeGroups : List Char → List Nat
  | c0 :: c1 :: c2 :: c3 :: rest =>
    match b64Val c0, b64Val c1 with
    | some v0, some v1 =>
      let b0 := v0 * 4 + v1 / 16
      match b64Val c2 with
      | none => [b0]
      | some v2 =>
        let b1 := v1 % 16 * 16 + v2 / 4
        match b64Val c3 with
        | none => [b0, b1]
        | some v3 => b0 :: b1 :: (v2 % 4 * 64 + v3) :: b64DecodeGroups rest
    | _, _ => []
  | _ => []

/-- `Buffer.from(text, 'base64')`. -/
def base64Decode (s : String) : List Nat := b64DecodeGroups s.data

/-- UTF-8 bytes of one character. -/
def charUtf8 (c : Char) : List Nat :=
  let n := c.toNat
  if n < 128 then [n]
  else if n < 2048 then [192 + n / 64, 128 + n % 64]
  else if n < 65536 then [224 + n / 4096, 128 + n / 64 % 64, 128 + n % 64]
  else [240 + n / 262144, 128 + n / 4096 % 64, 128 + n / 64 % 64, 128 + n % 64]

/-- `Buffer.from(text)` (UTF-8, the default encoding). -/
def utf8Bytes (s : String) : List Nat := s.data.flatMap charUtf8

/-- `expandElement` (source lines 6–20): normalise a JsonML element to the
`[tag, {attrs}, ...children]` form by inserting an empty attribute object
when the second item is a string or an array (i.e. a child).  Elements the
codec never produces (non-arrays, non-string tags — the source throws) are
returned unchanged. -/
def expandElement (e : JsValue) : JsValue :=
  match e with
  | .arr [tag] => .arr [tag, .obj []]
  | .arr (tag :: first :: rest) =>
    match first with
    | .str _ => .arr (tag :: .obj [] :: first :: rest)
    | .arr _ => .arr (tag :: .obj [] :: first :: rest)
    | _ => .arr (tag :: first :: rest)
  | _ => e

/-- `enc[1][key] = value` on an expanded element. -/
def setAttrField (key : String) (val : JsValue) (e : JsValue) : JsValue :=
  match e with
  | .arr (tag :: .obj fields :: rest) => .arr (tag :: .obj (setKey key val fields) :: rest)
  | _ => e

mutual

/-- `arbitraryObjectToJsonML` (source lines 92–119): the
`pigeon-optics:arbitrary` tag set.  Array children are the *raw* converted
elements; object children are expanded and given a `name` attribute. -/
def arbitraryObjectToJsonML : JsValue → JsValue
  | .null => .arr [.str "null"]
  | .undefined => .arr [.str "undefined"]
  | .str s => .arr [.str "string", .str s]
  | .num n => .arr [.str "number", .str (jsNumToString n)]
  | .nan => .arr [.str "number", .str "NaN"]
  | .date ms => .arr [.str "date", .str (toISOString ms)]
  | .bool b => .arr [.str (if b then "true" else "false")]
  | .buf bytes => .arr [.str "buffer", .obj [("encoding", .str "base64")], .str (base64Encode bytes)]
  | .arr items => .arr (.str "array" :: arbJsonMLList items)
  | .obj fields => .arr (.str "object" :: arbJsonMLFields fields)

/-- The children of an `<array>` element, in order. -/
def arbJsonMLList : List JsValue → List JsValue
  | [] => []
  | v :: rest => arbitraryObjectToJsonML v :: arbJsonMLList rest

/-- The children of an `<object>` element: each value expanded and named. -/
def arbJsonMLFields : List (String × JsValue) → List JsValue
  | [] => []
  | (p, v) :: rest =>
      setAttrField "name" (.str p) (expandElement (arbitraryObjectToJsonML v)) ::
        arbJsonMLFields rest

end

/-- The `encode` path for non-JsonML inputs (source lines 148–156): convert,
expand, and set `xmlns` to `pigeon-optics:arbitrary` on the root.  The
subsequent `buildXML` text serialisation is modelled by `xmlTransport`. -/
def encodeXML (obj : JsValue) : JsValue :=
  setAttrField "xmlns" (.str "pigeon-optics:arbitrary")
    (expandElement (arbitraryObjectToJsonML obj))

mutual

/-- The `buildXML` serialisation followed by `onml.parse`, as a JsonML →
JsonML map: structure, tags, attributes and non-empty text survive; an empty
attribute object is not representable in the XML text and the parse yields
the element without an attrs slot; empty text nodes vanish. -/
def xmlTransport : JsValue → JsValue
  | .arr (tag :: .obj [] :: rest) => .arr (tag :: xmlTransportChildren rest)
  | .arr (tag :: .obj fs :: rest) => .arr (tag :: .obj fs :: xmlTransportChildren rest)
  | .arr (tag :: rest) => .arr (tag :: xmlTransportChildren rest)
  | e => e

/-- Children after the round through XML text. -/
def xmlTransportChildren : List JsValue → List JsValue
  | [] => []
  | .str "" :: rest => xmlTransportChildren rest
  | c :: rest => xmlTransport c :: xmlTransportChildren rest

end

/-- `children.join('')` on the text children of a leaf tag (non-string
children never occur under the leaf tags the decoder joins). -/
def joinText : List JsValue → String
  | [] => ""
  | .str s :: rest => s ++ joinText rest
  | _ :: rest => joinText rest

/-- `parseFloat(text)` restricted to the integral strings the encoder emits:
an optional sign and digits; anything unparsable is `NaN` (fractional
values lie outside the integral number model). -/
def jsParseFloat (s : String) : JsValue :=
  let (neg, cs) := match s.data with
    | '-' :: rest => (true, rest)
    | cs => (false, cs)
  let digits := cs.takeWhile (isDigitCode ·)
  if digits.isEmpty then .nan
  else
    let v : Nat := digits.foldl (fun acc c => acc * 10 + (c.toNat - 48)) 0
    .num (if neg then -(v : Int) else (v : Int))

/-- `child[1].name` when decoding an `<object>`'s children: reading `.name`
off an array (or a missing attribute) gives `undefined`, which
`Object.fromEntries` stringifies to the key `"undefined"`. -/
def childNameAttr (c : JsValue) : String :=
  match c with
  | .arr (_ :: .obj fs :: _) =>
    match lookupKey "name" fs with
    | some (.str s) => s
    | _ => "undefined"
  | _ => "undefined"

/-- An attribute's string value, if present. -/
def attrString (attrs : JsValue) (key : String) : Option String :=
  match attrs with
  | .obj fs =>
    match lookupKey key fs with
    | some (.str s) => some s
    | _ => none
  | _ => none

/-- `Buffer.from(text, attributes.encoding)`. -/
def jsBufferFrom (s : String) (encoding : Option String) : JsValue :=
  match encoding with
  | some "base64" => .buf (base64Decode s)
  | _ => .buf (utf8Bytes s)

mutual

/-- Node count of a value, a structural bound on recursion depth. -/
def jsSize : JsValue → Nat
  | .arr items => jsSizeList items + 1
  | .obj fields => jsSizeFields fields + 1
  | _ => 1

/-- Node count of a list of values. -/
def jsSizeList : List JsValue → Nat
  | [] => 1
  | v :: rest => jsSize v + jsSizeList rest + 1

/-- Node count of an object's fields. -/
def jsSizeFields : List (String × JsValue) → Nat
  | [] => 1
  | (_, v) :: rest => jsSize v + jsSizeFields rest + 1

end

/-- `jsonMLToArbitraryObject` (source lines 121–146).  `hasAttributes` is
`jsonml[1] && typeof jsonml[1] === 'object'`, which an *element* child (a
JavaScript array) also satisfies, so a container whose first child is an
element without attributes mistakes that child for the attribute object and
drops it from `children`.  Unknown tags fall off the if-chain and return
`undefined`.  `fuel` bounds the recursion depth structurally; every call
descends into a child, so `jsSize` of the document is always sufficient. -/
def jsonMLToArbitraryObject : Nat → JsValue → JsValue
  | 0, _ => .undefined
  | fuel + 1, .obj fields =>
    -- `isJsonML(jsonml)` rewraps `{ JsonML: doc }`
    (match lookupKey "JsonML" fields with
     | some d => jsonMLToArbitraryObject fuel d
     | none => .undefined)
  | fuel + 1, .arr items =>
    let tag := match items.head? with
      | some (.str t) => t
      | _ => ""
    let hasAttributes := match items.get? 1 with
      | some (.obj _) => true
      | some (.arr _) => true
      | _ => false
    let attributes := if hasAttributes then (items.get? 1).getD (.obj []) else .obj []
    let children := items.drop (if hasAttributes then 2 else 1)
    if tag = "true" then .bool true
    else if tag = "false" then .bool false
    else if tag = "null" then .null
    else if tag = "undefined" then .undefined
    else if tag = "number" then jsParseFloat (joinText children)
    else if tag = "date" then jsNewDate (joinText children)
    else if tag = "string" then .str (joinText children)
    else if tag = "buffer" then jsBufferFrom (joinText children) (attrString attributes "encoding")
    else if tag = "array" then .arr (children.map (jsonMLToArbitraryObject fuel))
    else if tag = "object" then
      .obj (children.map (fun c => (childNameAttr c, jsonMLToArbitraryObject fuel c)))
    else .undefined
  | _ + 1, _ => .undefined

/-- The `decode` path (source lines 158–166) applied to the parsed document:
a root whose attributes carry `xmlns="pigeon-optics:arbitrary"` is decoded
as an arbitrary object; everything else is wrapped as `{ JsonML: doc }`. -/
def decodeXML (parsed : JsValue) : JsValue :=
  match parsed with
  | .arr items =>
    (match items.get? 1 with
     | some (.obj fs) =>
       (match lookupKey "xmlns" fs with
        | some (.str ns) =>
          if ns = "pigeon-optics:arbitrary" then
            jsonMLToArbitraryObject (jsSize (.arr items)) (.arr items)
          else .obj [("JsonML", .arr items)]
        | _ => .obj [("JsonML", .arr items)])
     | _ => .obj [("JsonML", .arr items)])
  | e => .obj [("JsonML", e)]

/-- `decode(encode(v))` through the XML text. -/
def xmlRoundTrip (v : JsValue) : JsValue := decodeXML (xmlTransport (encodeXML v))

/-! ## C8 — the XML codec does not round-trip nested containers -/

/-- C8: evaluating the codec at the failing input `[["x"]]`.  The inner
array is emitted as a raw child without an attribute object (array children
are not `expandElement`-ed), so after the XML round the decoder's
`hasAttributes` check mistakes the inner `<array>`'s first child for its
attribute object and decodes it as the empty array: the round trip returns
`[[]]`, not `[["x"]]`.  Flat values do round-trip (second conjunct shows a
plain string array surviving). -/
theorem xml_roundtrip_fails_on_nested_array :
    xmlRoundTrip (.arr [.arr [.str "x"]]) = .arr [.arr []] ∧
    JsValue.arr [JsValue.arr []] ≠ JsValue.arr [JsValue.arr [JsValue.str "x"]] ∧
    xmlRoundTrip (.arr [.str "x"]) = .arr [.str "x"] :=
  ⟨rfl, by decide, rfl⟩

end PigeonOptics
